import Mathlib

set_option maxRecDepth 8192

/-!
Shallow embedding of the nsh shell (src/main.c): the pipeline parser
cmd_builder, the pipeline executor execute_cmd, the line reader get_cmd and
the background flag threading of the prompt loop.

Modelling decisions, all read off the C source:

* Each stage's args array is a list of Option String slots: some tok models a
  stored token pointer, none models an assigned NULL.  The C code writes these
  slots contiguously from index 0, so the abstract list view is exact.
* The fixed C buffers (16 Command slots, 101 argument slots per command,
  128 token slots) carry no bounds check in the source.  The model keeps the
  abstract contents unbounded and raises the oob flag whenever a write falls
  outside the corresponding C buffer; oob = true marks an out-of-bounds write
  (undefined behaviour in the C program).
* The overwrite field of FullCommand is never written unless an output
  redirection operator occurs; it is modelled as Option Bool, none standing
  for the never-written malloc state.  The per-stage num_args counter is
  incremented from uninitialised memory and read only by the debugging helper
  print_command, so it is not part of the model.
* Operating-system effects of the executor (open, pipe, dup2, fork, waitpid,
  exit) are modelled by an environment record ExecEnv (which files can be
  opened, which exit status each stage's process eventually reports) and an
  explicit ExecResult value carrying the fork events in order.
-/

namespace Nsh

/-- An args array of one stage: slot i holds some tok when args[i] was last
assigned a token pointer, none when it was last assigned NULL. -/
abbrev Args := List (Option String)

/-- A single write args[i] = v.  The C code only ever writes contiguously
(the next fresh index is exactly the list length), so the append case is the
write one past the end; writes even further out never occur. -/
def writeAt (l : Args) (i : Nat) (v : Option String) : Args :=
  if i < l.length then l.set i v else l ++ [v]

/-- The argv that execvp sees: the entries of the args array up to the first
NULL. -/
def argvOf : Args → List String
  | [] => []
  | none :: _ => []
  | some s :: t => s :: argvOf t

/-- The FullCommand struct of main.c.  cmds lists the used stage arrays
(indices 0 .. num_cmds-1 of the C array).  oob is a model-level flag: true
when some array write of the build fell outside the fixed C buffers. -/
structure FullCommand where
  num_cmds : Nat
  cmds : List Args
  file_out : Option String
  file_in : Option String
  overwrite : Option Bool
  oob : Bool
deriving DecidableEq

/-- Mutable state of cmd_builder while scanning the token list: completed
stage arrays (most recent first), the current stage array, the C variables
offset, pos and num_cmd, the redirection records, the previously stored token
toks[pos-1] (none while pos = 0), and the out-of-bounds write flag. -/
structure PState where
  rev_done : List Args
  cur : Args
  offset : Nat
  pos : Nat
  numCmd : Nat
  fileIn : Option String
  fileOut : Option String
  overwrite : Option Bool
  prev : Option String
  oob : Bool

/-- True when the pending writes toks[pos] and cmds[num_cmd].args[offset]
would overrun the C buffers (128 token slots, 16 commands, 101 args). -/
def oobWrite (st : PState) : Bool :=
  decide (16 ≤ st.numCmd) || decide (101 ≤ st.offset) || decide (128 ≤ st.pos)

/-- Which branch of the token loop of cmd_builder fires: the token is the
pipe operator, or the previously stored token toks[pos-1] is a redirection
operator (so this token is consumed as its operand), or the token is stored
as a plain argument.  Mirrors the if chain at main.c lines 181-209 including
its order (the pipe test comes first, the pos > 0 guard is the some case). -/
inductive StepKind where
  | pipe : StepKind
  | operand : String → StepKind
  | plain : StepKind
deriving DecidableEq

def classify (prev : Option String) (t : String) : StepKind :=
  if t = "|" then .pipe
  else match prev with
    | some p =>
      if p = ">" then .operand ">"
      else if p = "<" then .operand "<"
      else if p = ">>" then .operand ">>"
      else .plain
    | none => .plain

/-- One iteration of the token loop of cmd_builder (main.c lines 176-212).
Every branch first stores toks[pos] = tok and cmds[num_cmd].args[offset] =
tok, then either closes the stage (pipe), or records a redirection target and
overwrites the stored operator slot args[offset-1] with NULL (operand), or
keeps the token as an argument (plain). -/
def pstep (st : PState) (tok : String) : PState :=
  let ow := oobWrite st
  let cur1 := writeAt st.cur st.offset (some tok)
  match classify st.prev tok with
  | .pipe =>
      { st with rev_done := writeAt cur1 st.offset none :: st.rev_done,
                cur := [], offset := 0, numCmd := st.numCmd + 1,
                pos := st.pos + 1, prev := some tok, oob := st.oob || ow }
  | .operand op =>
      { st with cur := writeAt cur1 (st.offset - 1) none,
                fileIn := if op = "<" then some tok else st.fileIn,
                fileOut := if op = "<" then st.fileOut else some tok,
                overwrite := if op = ">" then some true
                             else if op = ">>" then some false else st.overwrite,
                pos := st.pos + 1, prev := some tok,
                oob := st.oob || ow || decide (st.offset = 0) }
  | .plain =>
      { st with cur := cur1, offset := st.offset + 1,
                pos := st.pos + 1, prev := some tok, oob := st.oob || ow }

/-- State of cmd_builder before the first token. -/
def initP : PState :=
  { rev_done := [], cur := [], offset := 0, pos := 0, numCmd := 0,
    fileIn := none, fileOut := none, overwrite := none, prev := none,
    oob := false }

/-- End of the token loop (main.c lines 214-233): NULL-terminate the current
stage, optionally append the synthetic tee stage when backup is active, and
assemble the FullCommand.  With backup the C code increments num_cmd once
more before setting num_cmds = num_cmd + 1. -/
def finalize (st : PState) (backup : Bool) (fname : String) : FullCommand :=
  let curF := writeAt st.cur st.offset none
  let oobF := st.oob || decide (16 ≤ st.numCmd) || decide (101 ≤ st.offset)
  if backup then
    { num_cmds := st.numCmd + 1 + 1,
      cmds := (([some "tee", some "-a", some fname, none] : Args)
                 :: curF :: st.rev_done).reverse,
      file_out := st.fileOut, file_in := st.fileIn, overwrite := st.overwrite,
      oob := oobF || decide (16 ≤ st.numCmd + 1) }
  else
    { num_cmds := st.numCmd + 1,
      cmds := (curF :: st.rev_done).reverse,
      file_out := st.fileOut, file_in := st.fileIn, overwrite := st.overwrite,
      oob := oobF }

/-- cmd_builder of main.c on an already tokenised line.  backup and fname are
the process-wide backup state read by the builder. -/
def cmd_builder (toks : List String) (backup : Bool) (fname : String) :
    FullCommand :=
  finalize (toks.foldl pstep initP) backup fname

/-- strtok(line, " "): split on runs of spaces, no empty tokens. -/
def splitSpaces : List Char → List (List Char)
  | [] => [[]]
  | c :: cs =>
    if c = ' ' then [] :: splitSpaces cs
    else
      match splitSpaces cs with
      | [] => [[c]]
      | g :: r => (c :: g) :: r

def tokenize (cs : List Char) : List String :=
  ((splitSpaces cs).filter (fun g => g ≠ [])).map (fun g => String.mk g)

/-- Where a child process's standard input or output descriptor points after
the executor's dup2 plumbing: the caller's own stdin or stdout (via the saved
duplicates tin / tout), an opened redirection file (for output together with
the truncate flag), or an end of the pipe created between stage j and stage
j+1. -/
inductive Src where
  | inheritIn : Src
  | inheritOut : Src
  | infile : String → Src
  | outfile : String → Bool → Src
  | pipeRead : Nat → Src
  | pipeWrite : Nat → Src
deriving DecidableEq

/-- One fork performed by execute_cmd: the argv passed to execvp and where
the child's standard input and output point. -/
structure ForkEv where
  argv : List String
  stdin : Src
  stdout : Src
deriving DecidableEq

/-- Environment of one execute_cmd call: which input files open successfully,
which output files open successfully, and the exit status the process of
stage i eventually reports to waitpid. -/
structure ExecEnv where
  openIn : String → Bool
  openOut : String → Bool
  exitStatus : Nat → Nat

/-- Outcome of execute_cmd in the parent process.  crash: the C code passed
the NULL args[0] of the first stage to strcmp (undefined behaviour).
terminate: the quit directive returned 0 to the loop.  exitShell: the parent
called exit(EXIT_FAILURE), terminating the whole interpreter.  ok forks
collected ret: the forks performed in order, the status collected by the
waitpid on the last forked pid (none when the wait was skipped), and the
return value handed to the loop. -/
inductive ExecResult where
  | crash : ExecResult
  | terminate : ExecResult
  | exitShell : ExecResult
  | ok : List ForkEv → Option Nat → Nat → ExecResult
deriving DecidableEq

/-- The stage loop of execute_cmd (main.c lines 266-313).  i is the loop
index, the list argument the used stage arrays from index i on, fdIn the
current source for the child's stdin, lastOut what descriptor 1 of the parent
currently points to.  For the last stage (i = num_cmds - 1) the output sink
is resolved; note that after opening file_out the C code tests fd_in < 0
instead of fd_out < 0, and fd_in holds a non-negative descriptor there, so a
failed open is never detected: dup2(-1, 1) then fails silently and the child
keeps the previous target of descriptor 1, which is lastOut. -/
def runStages (env : ExecEnv) (cmd : FullCommand) :
    Nat → List Args → Src → Src → List ForkEv
  | _, [], _, _ => []
  | i, c :: rest, fdIn, lastOut =>
    if cmd.num_cmds ≤ i then [] else
    if i = cmd.num_cmds - 1 then
      let fdOut : Src :=
        match cmd.file_out with
        | some g =>
          if env.openOut g then Src.outfile g (cmd.overwrite == some true)
          else lastOut
        | none => Src.inheritOut
      ⟨argvOf c, fdIn, fdOut⟩ :: runStages env cmd (i + 1) rest fdIn fdOut
    else
      ⟨argvOf c, fdIn, Src.pipeWrite i⟩ ::
        runStages env cmd (i + 1) rest (Src.pipeRead i) (Src.pipeWrite i)

/-- execute_cmd of main.c.  First the quit test on cmds[0].args[0] (strcmp
with a NULL pointer is the crash outcome), then the input redirection: a
failed open of file_in makes the parent perror and exit(EXIT_FAILURE).
Otherwise every stage is forked unconditionally, stdin and stdout of the
parent are restored, and waitpid on the last forked pid runs unless bg_flag
is set.  The function always returns 1 to the loop; the collected status is
stored in a local variable and discarded. -/
def execute_cmd (cmd : FullCommand) (bg_flag : Bool) (env : ExecEnv) :
    ExecResult :=
  match (cmd.cmds.headD []).headD none with
  | none => ExecResult.crash
  | some prog =>
    if prog = "quit" then ExecResult.terminate
    else
      match cmd.file_in with
      | some f =>
        if env.openIn f then
          ExecResult.ok
            (runStages env cmd 0 cmd.cmds (Src.infile f) Src.inheritOut)
            (if bg_flag then none
             else some (env.exitStatus (cmd.num_cmds - 1))) 1
        else ExecResult.exitShell
      | none =>
        ExecResult.ok
          (runStages env cmd 0 cmd.cmds Src.inheritIn Src.inheritOut)
          (if bg_flag then none
           else some (env.exitStatus (cmd.num_cmds - 1))) 1

/-- get_cmd of main.c, after the trailing newline has been stripped: when the
last character of the line is an ampersand, the global bg is set to 1 and the
character removed; otherwise the line and the global bg are left as they are.
On an empty line the C code reads line[-1], out of bounds; the model leaves
the state unchanged there. -/
def get_cmd (line : List Char) (bg : Bool) : List Char × Bool :=
  match line.getLast? with
  | some c => if c = '&' then (line.dropLast, true) else (line, bg)
  | none => (line, bg)

/-- The value of the global bg at each execute_cmd call of the loop: for each
input line, get_cmd first updates bg, then the loop executes the parsed line
with the updated flag. -/
def sessionFlags (bg : Bool) : List (List Char) → List Bool
  | [] => []
  | l :: ls =>
    let r := get_cmd l bg
    r.2 :: sessionFlags r.2 ls

/-- Number of forks performed in an execution outcome. -/
def forkCount : ExecResult → Nat
  | .ok forks _ _ => forks.length
  | _ => 0

/-- Redirection operator tokens. -/
def isRedirOp (t : String) : Bool := t == "<" || t == ">" || t == ">>"

/-- Operator tokens of the grammar. -/
def isOpTok (t : String) : Bool := t == "|" || isRedirOp t

/-- Wellformedness of the spec (section 4.2): every redirection operator is
immediately followed by its operand, an operand being a non-operator token.
The first argument is the previous token (none at the start of the line). -/
def wfP : Option String → List String → Bool
  | some p, [] => !isRedirOp p
  | none, [] => true
  | prev, t :: ts =>
    (match prev with
     | some p => !(isRedirOp p && isOpTok t)
     | none => true) && wfP (some t) ts

def wfRedir (toks : List String) : Bool := wfP none toks

/-- Spec reading of input redirection: the token immediately following the
last occurrence of the < operator. -/
def specInputSource : List String → Option String
  | [] => none
  | [_] => none
  | a :: b :: ts =>
    match specInputSource (b :: ts) with
    | some v => some v
    | none => if a = "<" then some b else none

/-- Spec reading of output redirection: the token immediately following the
last occurrence of the > or >> operator. -/
def specOutputSource : List String → Option String
  | [] => none
  | [_] => none
  | a :: b :: ts =>
    match specOutputSource (b :: ts) with
    | some v => some v
    | none => if a = ">" ∨ a = ">>" then some b else none

/-- The pipe-separated segments of a token list (a blank line is one empty
segment). -/
def splitPipes : List String → List (List String)
  | [] => [[]]
  | t :: ts =>
    if t = "|" then [] :: splitPipes ts
    else
      match splitPipes ts with
      | [] => [[t]]
      | s :: r => (t :: s) :: r

/-- Spec reading of one stage's argument list: the tokens of its segment up
to the first redirection operator (operators and their operands, and
anything after them, never reach the stage's argv). -/
def refStage (seg : List String) : List String :=
  seg.takeWhile (fun t => !isRedirOp t)

/-- Where the executor connects a pipeline's first stdin when the opens
succeed. -/
def inSrcOf (p : FullCommand) : Src :=
  match p.file_in with
  | some f => Src.infile f
  | none => Src.inheritIn

/-- Where the executor connects a pipeline's last stdout when the opens
succeed. -/
def outSrcOf (p : FullCommand) : Src :=
  match p.file_out with
  | some g => Src.outfile g (p.overwrite == some true)
  | none => Src.inheritOut

/-- Environment in which every open succeeds and every process reports exit
status 0. -/
def envAll : ExecEnv :=
  { openIn := fun _ => true, openOut := fun _ => true,
    exitStatus := fun _ => 0 }

/-- Environment in which input files cannot be opened. -/
def envNoIn : ExecEnv :=
  { openIn := fun _ => false, openOut := fun _ => true,
    exitStatus := fun _ => 0 }

/-- Environment in which output files cannot be opened. -/
def envNoOut : ExecEnv :=
  { openIn := fun _ => true, openOut := fun _ => false,
    exitStatus := fun _ => 0 }

/-- Whether the previously stored token is a redirection operator (the
condition that makes the next token an operand). -/
def prevRedir : Option String → Bool
  | some p => isRedirOp p
  | none => false

/-- Reference mode of the parser inside one segment: mopen xs means no
redirection operator has occurred yet in the segment and xs are its argv
tokens so far; msealed a means an operator has occurred, the segment's argv
is fixed to a; mpending a means the token just read was a redirection
operator whose operand is still expected, with the argv fixed to a. -/
inductive RMode where
  | mopen : List String → RMode
  | msealed : List String → RMode
  | mpending : List String → RMode

/-- Reference computation of the argvs of the current and following stages,
read directly off the grammar: a pipe closes the stage, a redirection
operator seals the stage's argv and consumes the next token as operand, any
other token extends an unsealed argv. -/
def refCont : RMode → List String → List (List String)
  | .mopen xs, [] => [xs]
  | .msealed a, [] => [a]
  | .mpending a, [] => [a]
  | .mopen xs, t :: ts =>
    if t = "|" then xs :: refCont (.mopen []) ts
    else if isRedirOp t then refCont (.mpending xs) ts
    else refCont (.mopen (xs ++ [t])) ts
  | .msealed a, t :: ts =>
    if t = "|" then a :: refCont (.mopen []) ts
    else if isRedirOp t then refCont (.mpending a) ts
    else refCont (.msealed a) ts
  | .mpending a, _ :: ts => refCont (.msealed a) ts

/-- Prepend pending argv tokens onto the first of a list of segments. -/
def consH (xs : List String) : List (List String) → List (List String)
  | [] => [xs]
  | s :: r => (xs ++ s) :: r

/-- The update trace of the builder's file_in variable: the accumulator is
overwritten exactly when the token is consumed as the operand of <. -/
def inRef : Option String → Option String → List String → Option String
  | _, acc, [] => acc
  | prev, acc, t :: ts =>
    inRef (some t) (if (¬ t = "|") ∧ prev = some "<" then some t else acc) ts

/-- The update trace of the builder's file_out variable: the accumulator is
overwritten exactly when the token is consumed as the operand of > or >>. -/
def outRef : Option String → Option String → List String → Option String
  | _, acc, [] => acc
  | prev, acc, t :: ts =>
    outRef (some t)
      (if (¬ t = "|") ∧ (prev = some ">" ∨ prev = some ">>") then some t
       else acc) ts

/-- Simulation invariant tying the parser state to a reference mode: in mopen
xs the current args array is exactly the argv tokens; in msealed a the array
starts with a, then an assigned NULL, then residue, and offset points past
the NULL; in mpending a the operator has just been stored at offset - 1
(either still visible as the last slot, or behind an already assigned NULL
when the stage was sealed before). -/
def ModeInv (st : PState) : RMode → Prop
  | .mopen xs =>
    st.cur = xs.map some ∧ st.offset = xs.length ∧ prevRedir st.prev = false
  | .msealed a =>
    (∃ suf, st.cur = a.map some ++ none :: suf) ∧ a.length + 1 ≤ st.offset ∧
      prevRedir st.prev = false
  | .mpending a =>
    prevRedir st.prev = true ∧
      ((∃ v, st.cur = a.map some ++ [v] ∧ st.offset = a.length + 1) ∨
       ((∃ suf, st.cur = a.map some ++ none :: suf) ∧ a.length + 1 ≤ st.offset))

/-- Default fork event used as the out-of-range value of list indexing. -/
def forkD : ForkEv := ⟨[], Src.inheritIn, Src.inheritOut⟩

/-- Concrete line used to exercise claim C7: redirections declared between
interior stages of a three stage pipeline. -/
def toks7 : List String :=
  ["a", "|", "b", "<", "in.txt", "|", "c", ">", "out.txt"]

/-- The fork events execute_cmd performs on toks7 when every open succeeds:
the mid-pipeline operators bind pipeline-wide, so stage 0 reads in.txt and
stage 2 writes (truncating) out.txt, with pipes in between. -/
def forks7 : List ForkEv :=
  [⟨["a"], Src.infile "in.txt", Src.pipeWrite 0⟩,
   ⟨["b"], Src.pipeRead 0, Src.pipeWrite 1⟩,
   ⟨["c"], Src.pipeRead 1, Src.outfile "out.txt" true⟩]

/-! ## Branch analysis of the token loop -/

lemma classify_pipe (prev : Option String) : classify prev "|" = .pipe := by
  simp [classify]

lemma classify_not_pipe {prev : Option String} {t : String} (h : ¬ t = "|") :
    ¬ classify prev t = .pipe := by
  cases prev with
  | none => simp [classify, h]
  | some p => simp only [classify, if_neg h]; split_ifs <;> simp

lemma classify_plain_of {prev : Option String} {t : String}
    (h : ¬ t = "|") (hp : prevRedir prev = false) :
    classify prev t = .plain := by
  cases prev with
  | none => simp [classify, h]
  | some p =>
    simp only [prevRedir, isRedirOp, Bool.or_eq_false_iff, beq_eq_false_iff_ne,
      ne_eq] at hp
    obtain ⟨⟨h1, h2⟩, h3⟩ := hp
    simp [classify, h, h1, h2, h3]

lemma classify_operand_of {prev : Option String} {t : String}
    (h : ¬ t = "|") (hp : prevRedir prev = true) :
    ∃ op, prev = some op ∧ isRedirOp op = true ∧
      classify prev t = .operand op := by
  cases prev with
  | none => simp [prevRedir] at hp
  | some p =>
    refine ⟨p, rfl, by simpa [prevRedir] using hp, ?_⟩
    simp only [prevRedir, isRedirOp, Bool.or_eq_true, beq_iff_eq] at hp
    rcases hp with (h1 | h2) | h3
    · subst h1; simp [classify, h]
    · subst h2; simp [classify, h]
    · subst h3; simp [classify, h]

lemma pstep_of_pipe {st : PState} {t : String}
    (h : classify st.prev t = .pipe) :
    pstep st t =
      { st with
        rev_done :=
          writeAt (writeAt st.cur st.offset (some t)) st.offset none
            :: st.rev_done,
        cur := [], offset := 0, numCmd := st.numCmd + 1,
        pos := st.pos + 1, prev := some t,
        oob := st.oob || oobWrite st } := by
  simp [pstep, h]

lemma pstep_of_operand {st : PState} {t op : String}
    (h : classify st.prev t = .operand op) :
    pstep st t =
      { st with
        cur := writeAt (writeAt st.cur st.offset (some t)) (st.offset - 1) none,
        fileIn := if op = "<" then some t else st.fileIn,
        fileOut := if op = "<" then st.fileOut else some t,
        overwrite := if op = ">" then some true
                     else if op = ">>" then some false else st.overwrite,
        pos := st.pos + 1, prev := some t,
        oob := st.oob || oobWrite st || decide (st.offset = 0) } := by
  simp [pstep, h]

lemma pstep_of_plain {st : PState} {t : String}
    (h : classify st.prev t = .plain) :
    pstep st t =
      { st with
        cur := writeAt st.cur st.offset (some t), offset := st.offset + 1,
        pos := st.pos + 1, prev := some t,
        oob := st.oob || oobWrite st } := by
  simp [pstep, h]

lemma pstep_prev (st : PState) (t : String) : (pstep st t).prev = some t := by
  rcases hc : classify st.prev t with _ | op | _
  · simp [pstep_of_pipe hc]
  · simp [pstep_of_operand hc]
  · simp [pstep_of_plain hc]

lemma pstep_numCmd (st : PState) (t : String) :
    (pstep st t).numCmd = st.numCmd + (if t = "|" then 1 else 0) := by
  by_cases h : t = "|"
  · subst h; simp [pstep_of_pipe (classify_pipe st.prev)]
  · rcases hc : classify st.prev t with _ | op | _
    · exact absurd hc (classify_not_pipe h)
    · simp [pstep_of_operand hc, h]
    · simp [pstep_of_plain hc, h]

lemma pstep_revdone_len (st : PState) (t : String) :
    (pstep st t).rev_done.length =
      st.rev_done.length + (if t = "|" then 1 else 0) := by
  by_cases h : t = "|"
  · subst h; simp [pstep_of_pipe (classify_pipe st.prev)]
  · rcases hc : classify st.prev t with _ | op | _
    · exact absurd hc (classify_not_pipe h)
    · simp [pstep_of_operand hc, h]
    · simp [pstep_of_plain hc, h]

lemma foldl_numCmd (toks : List String) :
    ∀ st : PState, (toks.foldl pstep st).numCmd = st.numCmd + toks.count "|" := by
  induction toks with
  | nil => intro st; simp
  | cons t ts ih =>
    intro st
    rw [List.foldl_cons, ih, pstep_numCmd]
    by_cases h : t = "|" <;> simp [List.count_cons, h] <;> omega

lemma foldl_revdone_len (toks : List String) :
    ∀ st : PState,
      (toks.foldl pstep st).rev_done.length =
        st.rev_done.length + toks.count "|" := by
  induction toks with
  | nil => intro st; simp
  | cons t ts ih =>
    intro st
    rw [List.foldl_cons, ih, pstep_revdone_len]
    by_cases h : t = "|" <;> simp [List.count_cons, h] <;> omega

/-! ## Structure of the built FullCommand -/

lemma finalize_file_in (st : PState) (backup : Bool) (fname : String) :
    (finalize st backup fname).file_in = st.fileIn := by
  cases backup <;> simp [finalize]

lemma finalize_file_out (st : PState) (backup : Bool) (fname : String) :
    (finalize st backup fname).file_out = st.fileOut := by
  cases backup <;> simp [finalize]

lemma cmd_builder_num_cmds (toks : List String) (backup : Bool)
    (fname : String) :
    (cmd_builder toks backup fname).num_cmds =
      toks.count "|" + 1 + (if backup then 1 else 0) := by
  cases backup <;>
    simp [cmd_builder, finalize, foldl_numCmd, initP] <;> omega

lemma cmd_builder_len (toks : List String) (backup : Bool) (fname : String) :
    (cmd_builder toks backup fname).cmds.length =
      (cmd_builder toks backup fname).num_cmds := by
  cases backup <;>
    simp [cmd_builder, finalize, foldl_numCmd, foldl_revdone_len, initP]

/-! ## Args array writes -/

lemma writeAt_of_ge {l : Args} {i : Nat} (v : Option String)
    (h : l.length ≤ i) : writeAt l i v = l ++ [v] := by
  simp [writeAt, Nat.not_lt.mpr h]

lemma writeAt_of_lt {l : Args} {i : Nat} (v : Option String)
    (h : i < l.length) : writeAt l i v = l.set i v := by
  simp [writeAt, h]

lemma argvOf_map_some (a : List String) (suf : Args) :
    argvOf (a.map some ++ none :: suf) = a := by
  induction a with
  | nil => simp [argvOf]
  | cons x xs ih => simp [argvOf, ih]

lemma writeAt_pre (pre suf : Args) (i : Nat) (v : Option String)
    (h : pre.length ≤ i) :
    ∃ suf2, writeAt (pre ++ suf) i v = pre ++ suf2 := by
  by_cases hlt : i < (pre ++ suf).length
  · refine ⟨suf.set (i - pre.length) v, ?_⟩
    rw [writeAt_of_lt v hlt, List.set_append, if_neg (Nat.not_lt.mpr h)]
  · exact ⟨suf ++ [v], by rw [writeAt_of_ge v (Nat.not_lt.mp hlt),
      List.append_assoc]⟩

lemma write_sealed_shape (a : List String) (suf : Args) (i : Nat)
    (v : Option String) (h : a.length + 1 ≤ i) :
    ∃ suf2,
      writeAt (a.map some ++ none :: suf) i v = a.map some ++ none :: suf2 := by
  have hp := writeAt_pre (a.map some ++ [none]) suf i v (by simpa using h)
  obtain ⟨suf2, hs⟩ := hp
  exact ⟨suf2, by simpa [List.append_assoc] using hs⟩

lemma write_sealed_none (a : List String) (suf : Args) (i : Nat)
    (h : a.length ≤ i) :
    ∃ suf2,
      writeAt (a.map some ++ none :: suf) i none =
        a.map some ++ none :: suf2 := by
  rcases Nat.lt_or_ge i (a.length + 1) with hlt | hge
  · have hi : i = a.length := Nat.le_antisymm (Nat.lt_succ_iff.mp hlt) h
    subst hi
    refine ⟨suf, ?_⟩
    rw [writeAt_of_lt none (by simp), List.set_append,
      if_neg (by simp)]
    simp
  · exact write_sealed_shape a suf i none hge

lemma argv_write_sealed (a : List String) (suf : Args) (i : Nat)
    (v : Option String) (h : a.length + 1 ≤ i) :
    argvOf (writeAt (a.map some ++ none :: suf) i v) = a := by
  obtain ⟨suf2, hs⟩ := write_sealed_shape a suf i v h
  rw [hs, argvOf_map_some]

lemma argv_close_open (xs : List String) (t : String) :
    argvOf
      (writeAt (writeAt (xs.map some) xs.length (some t)) xs.length none) =
      xs := by
  have h1 : writeAt (xs.map some) xs.length (some t) =
      xs.map some ++ [some t] := writeAt_of_ge _ (by simp)
  rw [h1]
  have h2 : writeAt (xs.map some ++ [some t]) xs.length none =
      (xs.map some ++ [some t]).set xs.length none :=
    writeAt_of_lt _ (by simp)
  rw [h2, List.set_append, if_neg (by simp)]
  simpa using argvOf_map_some xs []

lemma argv_final_open (xs : List String) :
    argvOf (writeAt (xs.map some) xs.length none) = xs := by
  rw [writeAt_of_ge _ (by simp)]
  simpa using argvOf_map_some xs []

/-! ## The redirection variables file_in and file_out -/

lemma pstep_fileIn (st : PState) (t : String) :
    (pstep st t).fileIn =
      if (¬ t = "|") ∧ st.prev = some "<" then some t else st.fileIn := by
  by_cases h : t = "|"
  · subst h; simp [pstep_of_pipe (classify_pipe st.prev)]
  · cases hp : prevRedir st.prev
    · rw [pstep_of_plain (classify_plain_of h hp)]
      have hne : ¬ st.prev = some "<" := by
        intro he; rw [he] at hp; simp [prevRedir, isRedirOp] at hp
      simp [h, hne]
    · obtain ⟨op, hpe, hop, hc⟩ := classify_operand_of h hp
      rw [pstep_of_operand hc]
      by_cases ho : op = "<"
      · subst ho; simp [hpe, h]
      · simp [hpe, ho, h]

lemma pstep_fileOut (st : PState) (t : String) :
    (pstep st t).fileOut =
      if (¬ t = "|") ∧ (st.prev = some ">" ∨ st.prev = some ">>") then some t
      else st.fileOut := by
  by_cases h : t = "|"
  · subst h; simp [pstep_of_pipe (classify_pipe st.prev)]
  · cases hp : prevRedir st.prev
    · rw [pstep_of_plain (classify_plain_of h hp)]
      have hne : ¬ (st.prev = some ">" ∨ st.prev = some ">>") := by
        rintro (he | he) <;> rw [he] at hp <;>
          simp [prevRedir, isRedirOp] at hp
      simp [h, hne]
    · obtain ⟨op, hpe, hop, hc⟩ := classify_operand_of h hp
      rw [pstep_of_operand hc]
      by_cases ho : op = "<"
      · subst ho
        have : ¬ (st.prev = some ">" ∨ st.prev = some ">>") := by
          rw [hpe]; rintro (he | he) <;> simp at he
        simp [hpe, h, this]
      · have hor : op = ">" ∨ op = ">>" := by
          simp only [isRedirOp, Bool.or_eq_true, beq_iff_eq] at hop
          rcases hop with (h1 | h2) | h3
          · exact absurd h1 ho
          · exact Or.inl h2
          · exact Or.inr h3
        have hc2 : st.prev = some ">" ∨ st.prev = some ">>" := by
          rw [hpe]; rcases hor with h1 | h1 <;> [exact Or.inl (by rw [h1]);
            exact Or.inr (by rw [h1])]
        simp [ho, h, hc2]

lemma foldl_fileIn (toks : List String) :
    ∀ st : PState,
      (toks.foldl pstep st).fileIn = inRef st.prev st.fileIn toks := by
  induction toks with
  | nil => intro st; simp [inRef]
  | cons t ts ih =>
    intro st
    rw [List.foldl_cons, ih, pstep_prev, pstep_fileIn]
    rfl

lemma foldl_fileOut (toks : List String) :
    ∀ st : PState,
      (toks.foldl pstep st).fileOut = outRef st.prev st.fileOut toks := by
  induction toks with
  | nil => intro st; simp [outRef]
  | cons t ts ih =>
    intro st
    rw [List.foldl_cons, ih, pstep_prev, pstep_fileOut]
    rfl

lemma inRef_pairs (ts : List String) :
    ∀ (t : String) (acc : Option String), wfP (some t) ts = true →
      inRef (some t) acc ts =
        match specInputSource (t :: ts) with
        | some v => some v
        | none => acc := by
  induction ts with
  | nil => intro t acc _; simp [inRef, specInputSource]
  | cons u us ih =>
    intro t acc hwf
    simp only [wfP, Bool.and_eq_true] at hwf
    obtain ⟨hw1, hw2⟩ := hwf
    have step :
        inRef (some t) acc (u :: us) =
          inRef (some u)
            (if (¬ u = "|") ∧ (some t : Option String) = some "<" then some u
             else acc) us := rfl
    rw [step, ih u _ hw2]
    cases hs : specInputSource (u :: us) with
    | some v => simp [specInputSource, hs]
    | none =>
      simp only [specInputSource, hs]
      by_cases ht : t = "<"
      · subst ht
        have hu : isOpTok u = false := by
          simpa [isRedirOp] using hw1
        have hu1 : ¬ u = "|" := by
          simp only [isOpTok, Bool.or_eq_false_iff, beq_eq_false_iff_ne,
            ne_eq] at hu
          exact hu.1
        simp [hu1]
      · simp [ht]

lemma outRef_pairs (ts : List String) :
    ∀ (t : String) (acc : Option String), wfP (some t) ts = true →
      outRef (some t) acc ts =
        match specOutputSource (t :: ts) with
        | some v => some v
        | none => acc := by
  induction ts with
  | nil => intro t acc _; simp [outRef, specOutputSource]
  | cons u us ih =>
    intro t acc hwf
    simp only [wfP, Bool.and_eq_true] at hwf
    obtain ⟨hw1, hw2⟩ := hwf
    have step :
        outRef (some t) acc (u :: us) =
          outRef (some u)
            (if (¬ u = "|") ∧ ((some t : Option String) = some ">" ∨
                (some t : Option String) = some ">>") then some u
             else acc) us := rfl
    rw [step, ih u _ hw2]
    cases hs : specOutputSource (u :: us) with
    | some v => simp [specOutputSource, hs]
    | none =>
      simp only [specOutputSource, hs]
      by_cases ht : t = ">" ∨ t = ">>"
      · have htr : isRedirOp t = true := by
          rcases ht with h1 | h1 <;> simp [isRedirOp, h1]
        have hu : isOpTok u = false := by
          simpa [htr] using hw1
        have hu1 : ¬ u = "|" := by
          simp only [isOpTok, Bool.or_eq_false_iff, beq_eq_false_iff_ne,
            ne_eq] at hu
          exact hu.1
        simp [hu1, ht]
      · simp [ht]

lemma cmd_builder_file_in (toks : List String) (backup : Bool)
    (fname : String) (hwf : wfRedir toks = true) :
    (cmd_builder toks backup fname).file_in = specInputSource toks := by
  rw [cmd_builder, finalize_file_in, foldl_fileIn]
  cases toks with
  | nil => simp [inRef, specInputSource, initP]
  | cons t ts =>
    have hw : wfP (some t) ts = true := by
      simpa [wfRedir, wfP] using hwf
    have step :
        inRef initP.prev initP.fileIn (t :: ts) =
          inRef (some t) none ts := by
      simp [inRef, initP]
    rw [step, inRef_pairs ts t none hw]
    cases specInputSource (t :: ts) <;> simp

lemma cmd_builder_file_out (toks : List String) (backup : Bool)
    (fname : String) (hwf : wfRedir toks = true) :
    (cmd_builder toks backup fname).file_out = specOutputSource toks := by
  rw [cmd_builder, finalize_file_out, foldl_fileOut]
  cases toks with
  | nil => simp [outRef, specOutputSource, initP]
  | cons t ts =>
    have hw : wfP (some t) ts = true := by
      simpa [wfRedir, wfP] using hwf
    have step :
        outRef initP.prev initP.fileOut (t :: ts) =
          outRef (some t) none ts := by
      simp [outRef, initP]
    rw [step, outRef_pairs ts t none hw]
    cases specOutputSource (t :: ts) <;> simp

/-! ## Simulation of the token loop against the reference grammar -/

lemma wfP_shift {t : String} (h : isRedirOp t = false) (ts : List String) :
    wfP (some t) ts = wfP none ts := by
  cases ts with
  | nil => simp [wfP, h]
  | cons u us => simp [wfP, h]

lemma isOpTok_false_parts {t : String} (h : isOpTok t = false) :
    (¬ t = "|") ∧ isRedirOp t = false := by
  simp only [isOpTok, Bool.or_eq_false_iff, beq_eq_false_iff_ne, ne_eq] at h
  exact ⟨h.1, h.2⟩

lemma wfP_cons (prev : Option String) (t : String) (ts : List String) :
    wfP prev (t :: ts) =
      ((match prev with
        | some p => !(isRedirOp p && isOpTok t)
        | none => true) && wfP (some t) ts) := by
  cases prev <;> rfl

lemma pstep_sim (rest : List String) :
    ∀ (st : PState) (mode : RMode),
      wfP st.prev rest = true → ModeInv st mode →
      ((rest.foldl pstep st).rev_done.reverse.map argvOf)
          ++ [argvOf (writeAt (rest.foldl pstep st).cur
                (rest.foldl pstep st).offset none)]
        = (st.rev_done.reverse.map argvOf) ++ refCont mode rest := by
  induction rest with
  | nil =>
    intro st mode hwf hinv
    cases mode with
    | mopen xs =>
      obtain ⟨hcur, hoff, -⟩ := hinv
      simp only [List.foldl_nil, refCont]
      rw [hcur, hoff, argv_final_open]
    | msealed a =>
      obtain ⟨⟨suf, hcur⟩, hoff, -⟩ := hinv
      simp only [List.foldl_nil, refCont]
      rw [hcur, argv_write_sealed a suf _ _ hoff]
    | mpending a =>
      obtain ⟨hprev, -⟩ := hinv
      exfalso
      cases hpe : st.prev with
      | none => rw [hpe] at hprev; simp [prevRedir] at hprev
      | some p =>
        rw [hpe] at hprev hwf
        simp only [prevRedir] at hprev
        simp [wfP, hprev] at hwf
  | cons t ts ih =>
    intro st mode hwf hinv
    rw [wfP_cons] at hwf
    simp only [Bool.and_eq_true] at hwf
    obtain ⟨hw1, hw2⟩ := hwf
    rw [List.foldl_cons]
    cases mode with
    | mopen xs =>
      obtain ⟨hcur, hoff, hprev⟩ := hinv
      by_cases ht : t = "|"
      · subst ht
        have hc := classify_pipe st.prev
        have hinv2 : ModeInv (pstep st "|") (.mopen []) := by
          rw [pstep_of_pipe hc]
          simp [ModeInv, prevRedir, isRedirOp]
        have hh := ih (pstep st "|") (.mopen [])
          (by rw [pstep_prev]; exact hw2) hinv2
        rw [hh, pstep_of_pipe hc]
        have harg : argvOf (writeAt (writeAt st.cur st.offset (some "|"))
            st.offset none) = xs := by
          rw [hcur, hoff]; exact argv_close_open xs "|"
        simp only [List.reverse_cons, List.map_append, List.map_cons,
          List.map_nil, harg]
        simp [refCont, List.append_assoc]
      · by_cases hr : isRedirOp t = true
        · have hc := classify_plain_of ht hprev
          have hcur2 : writeAt st.cur st.offset (some t) =
              xs.map some ++ [some t] := by
            rw [hcur, hoff]; exact writeAt_of_ge _ (by simp)
          have hinv2 : ModeInv (pstep st t) (.mpending xs) := by
            rw [pstep_of_plain hc]
            simp only [ModeInv]
            exact ⟨by simp [prevRedir, hr],
              Or.inl ⟨some t, by simp [hcur2], by simp [hoff]⟩⟩
          have hh := ih (pstep st t) (.mpending xs)
            (by rw [pstep_prev]; exact hw2) hinv2
          rw [hh, pstep_of_plain hc]
          simp [refCont, ht, hr]
        · have hc := classify_plain_of ht hprev
          have hcur2 : writeAt st.cur st.offset (some t) =
              (xs ++ [t]).map some := by
            rw [hcur, hoff, writeAt_of_ge _ (by simp)]; simp
          have hinv2 : ModeInv (pstep st t) (.mopen (xs ++ [t])) := by
            rw [pstep_of_plain hc]
            simp only [ModeInv]
            refine ⟨by simp [hcur2], by simp [hoff], ?_⟩
            simp only [prevRedir]
            simpa using hr
          have hh := ih (pstep st t) (.mopen (xs ++ [t]))
            (by rw [pstep_prev]; exact hw2) hinv2
          rw [hh, pstep_of_plain hc]
          simp [refCont, ht, hr]
    | msealed a =>
      obtain ⟨⟨suf, hcur⟩, hoff, hprev⟩ := hinv
      by_cases ht : t = "|"
      · subst ht
        have hc := classify_pipe st.prev
        have hinv2 : ModeInv (pstep st "|") (.mopen []) := by
          rw [pstep_of_pipe hc]
          simp [ModeInv, prevRedir, isRedirOp]
        have hh := ih (pstep st "|") (.mopen [])
          (by rw [pstep_prev]; exact hw2) hinv2
        rw [hh, pstep_of_pipe hc]
        obtain ⟨suf1, hs1⟩ := write_sealed_shape a suf st.offset (some "|") hoff
        have harg : argvOf (writeAt (writeAt st.cur st.offset (some "|"))
            st.offset none) = a := by
          rw [hcur, hs1, argv_write_sealed a suf1 _ _ hoff]
        simp only [List.reverse_cons, List.map_append, List.map_cons,
          List.map_nil, harg]
        simp [refCont, List.append_assoc]
      · by_cases hr : isRedirOp t = true
        · have hc := classify_plain_of ht hprev
          obtain ⟨suf1, hs1⟩ := write_sealed_shape a suf st.offset (some t) hoff
          have hinv2 : ModeInv (pstep st t) (.mpending a) := by
            rw [pstep_of_plain hc]
            simp only [ModeInv]
            refine ⟨by simp [prevRedir, hr],
              Or.inr ⟨⟨suf1, ?_⟩, ?_⟩⟩
            · rw [hcur]
              exact hs1
            ·
              omega
          have hh := ih (pstep st t) (.mpending a)
            (by rw [pstep_prev]; exact hw2) hinv2
          rw [hh, pstep_of_plain hc]
          simp [refCont, ht, hr]
        · have hc := classify_plain_of ht hprev
          obtain ⟨suf1, hs1⟩ := write_sealed_shape a suf st.offset (some t) hoff
          have hinv2 : ModeInv (pstep st t) (.msealed a) := by
            rw [pstep_of_plain hc]
            simp only [ModeInv]
            refine ⟨⟨suf1, ?_⟩, ?_, ?_⟩
            · rw [hcur]
              exact hs1
            ·
              omega
            · simp only [prevRedir]
              simpa using hr
          have hh := ih (pstep st t) (.msealed a)
            (by rw [pstep_prev]; exact hw2) hinv2
          rw [hh, pstep_of_plain hc]
          simp [refCont, ht, hr]
    | mpending a =>
      obtain ⟨hprev, hdis⟩ := hinv
      obtain ⟨p, hpe⟩ : ∃ p, st.prev = some p := by
        cases hpe : st.prev with
        | none => rw [hpe] at hprev; simp [prevRedir] at hprev
        | some p => exact ⟨p, rfl⟩
      have hpr : isRedirOp p = true := by
        rw [hpe] at hprev; simpa [prevRedir] using hprev
      have hopt : isOpTok t = false := by
        rw [hpe] at hw1; simpa [hpr] using hw1
      obtain ⟨ht, hr⟩ := isOpTok_false_parts hopt
      obtain ⟨op, hpe2, hop, hc⟩ := classify_operand_of ht hprev
      have hinv2 : ModeInv (pstep st t) (.msealed a) := by
        rw [pstep_of_operand hc]
        simp only [ModeInv]
        rcases hdis with ⟨v, hcur, hoff⟩ | ⟨⟨suf, hcur⟩, hoff⟩
        · refine ⟨⟨[some t], ?_⟩, ?_, ?_⟩
          ·
            rw [hcur, hoff]
            have e1 : writeAt (a.map some ++ [v]) (a.length + 1) (some t) =
                a.map some ++ [v] ++ [some t] :=
              writeAt_of_ge _ (by simp)
            have e2 : writeAt (a.map some ++ [v] ++ [some t]) a.length none =
                a.map some ++ none :: [some t] := by
              rw [writeAt_of_lt _ (by simp), List.set_append,
                if_pos (by simp), List.set_append, if_neg (by simp)]
              simp
            rw [e1]
            simpa using e2
          ·
            omega
          · simp only [prevRedir]
            simpa using hr
        · obtain ⟨suf1, hs1⟩ := write_sealed_shape a suf st.offset (some t) hoff
          obtain ⟨suf2, hs2⟩ :=
            write_sealed_none a suf1 (st.offset - 1) (by omega)
          refine ⟨⟨suf2, ?_⟩, ?_, ?_⟩
          ·
            rw [hcur, hs1, hs2]
          ·
            omega
          · simp only [prevRedir]
            simpa using hr
      have hh := ih (pstep st t) (.msealed a)
        (by rw [pstep_prev]; exact hw2) hinv2
      rw [hh, pstep_of_operand hc]
      simp [refCont]

/-! ## From the reference modes to segments and takeWhile -/

lemma splitPipes_ne_nil (toks : List String) : splitPipes toks ≠ [] := by
  cases toks with
  | nil => simp [splitPipes]
  | cons t ts =>
    by_cases h : t = "|"
    · simp [splitPipes, h]
    · simp only [splitPipes, if_neg h]
      cases splitPipes ts <;> simp

lemma splitPipes_pipe (ts : List String) :
    splitPipes ("|" :: ts) = [] :: splitPipes ts := by
  simp [splitPipes]

lemma splitPipes_cons {t : String} (h : ¬ t = "|") {ts : List String}
    {s0 : List String} {r : List (List String)}
    (h2 : splitPipes ts = s0 :: r) :
    splitPipes (t :: ts) = (t :: s0) :: r := by
  simp [splitPipes, h, h2]

lemma consH_nil_arg {l : List (List String)} (h : l ≠ []) :
    consH [] l = l := by
  cases l with
  | nil => exact absurd rfl h
  | cons s r => simp [consH]

lemma refStage_cons_op {t : String} (h : isRedirOp t = true)
    (seg : List String) : refStage (t :: seg) = [] := by
  simp [refStage, List.takeWhile_cons, h]

lemma refStage_cons {t : String} (h : isRedirOp t = false)
    (seg : List String) : refStage (t :: seg) = t :: refStage seg := by
  simp [refStage, List.takeWhile_cons, h]

lemma refCont_char (toks : List String) :
    (∀ xs, wfP none toks = true →
        refCont (.mopen xs) toks = consH xs ((splitPipes toks).map refStage))
    ∧ (∀ a, wfP none toks = true →
        refCont (.msealed a) toks =
          a :: ((splitPipes toks).map refStage).tail)
    ∧ (∀ a,
        (∀ u us, toks = u :: us → isOpTok u = false ∧ wfP none us = true) →
        refCont (.mpending a) toks =
          a :: ((splitPipes (toks.drop 1)).map refStage).tail) := by
  induction toks with
  | nil =>
    refine ⟨?_, ?_, ?_⟩
    · intro xs _; simp [refCont, splitPipes, consH, refStage]
    · intro a _; simp [refCont, splitPipes, refStage]
    · intro a _; simp [refCont, splitPipes, refStage]
  | cons t ts ih =>
    obtain ⟨ih1, ih2, ih3⟩ := ih
    have hmapne : (splitPipes ts).map refStage ≠ [] := by
      intro hmap
      exact splitPipes_ne_nil ts (by simpa using hmap)
    refine ⟨?_, ?_, ?_⟩
    · intro xs hwf
      rw [wfP_cons] at hwf
      simp only [Bool.and_eq_true] at hwf
      obtain ⟨-, hw2⟩ := hwf
      by_cases ht : t = "|"
      · subst ht
        have hsh : wfP none ts = true := by
          rw [← @wfP_shift "|" (by simp [isRedirOp]) ts]; exact hw2
        rw [splitPipes_pipe]
        have hLHS : refCont (.mopen xs) ("|" :: ts) =
            xs :: refCont (.mopen []) ts := by simp [refCont]
        rw [hLHS, ih1 [] hsh, consH_nil_arg hmapne]
        simp [consH, refStage]
      · by_cases hr : isRedirOp t = true
        · -- the operator seals the stage; ts starts with its operand
          cases ts with
          | nil => rw [wfP] at hw2; simp [hr] at hw2
          | cons u us =>
            rw [wfP_cons] at hw2
            simp only [Bool.and_eq_true, hr] at hw2
            obtain ⟨hu, hwus⟩ := hw2
            have hu2 : isOpTok u = false := by simpa using hu
            obtain ⟨hu3, hu4⟩ := isOpTok_false_parts hu2
            have hwnus : wfP none us = true := by
              rw [← wfP_shift hu4 us]; exact hwus
            obtain ⟨s1, r1, hsp1⟩ :=
              List.exists_cons_of_ne_nil (splitPipes_ne_nil us)
            have hspts : splitPipes (u :: us) = (u :: s1) :: r1 :=
              splitPipes_cons hu3 hsp1
            have hsptts : splitPipes (t :: u :: us) = (t :: u :: s1) :: r1 :=
              splitPipes_cons ht hspts
            have hLHS : refCont (.mopen xs) (t :: u :: us) =
                refCont (.mpending xs) (u :: us) := by simp [refCont, ht, hr]
            rw [hLHS, ih3 xs ?_, hsptts]
            · simp only [List.drop_succ_cons, List.drop_zero, hsp1,
                List.map_cons, List.tail_cons, refStage_cons_op hr, consH]
              simp
            · intro u' us' he
              cases he
              exact ⟨hu2, hwnus⟩
        · have hsh : wfP none ts = true := by
            rw [← wfP_shift (by simpa using hr) ts]; exact hw2
          obtain ⟨s0, r, hsp⟩ :=
            List.exists_cons_of_ne_nil (splitPipes_ne_nil ts)
          have hLHS : refCont (.mopen xs) (t :: ts) =
              refCont (.mopen (xs ++ [t])) ts := by simp [refCont, ht, hr]
          rw [hLHS, ih1 (xs ++ [t]) hsh, hsp, splitPipes_cons ht hsp]
          simp [consH, refStage_cons (by simpa using hr), List.append_assoc]
    · intro a hwf
      rw [wfP_cons] at hwf
      simp only [Bool.and_eq_true] at hwf
      obtain ⟨-, hw2⟩ := hwf
      by_cases ht : t = "|"
      · subst ht
        have hsh : wfP none ts = true := by
          rw [← @wfP_shift "|" (by simp [isRedirOp]) ts]; exact hw2
        rw [splitPipes_pipe]
        have hLHS : refCont (.msealed a) ("|" :: ts) =
            a :: refCont (.mopen []) ts := by simp [refCont]
        rw [hLHS, ih1 [] hsh, consH_nil_arg hmapne]
        simp [refStage]
      · by_cases hr : isRedirOp t = true
        · cases ts with
          | nil => rw [wfP] at hw2; simp [hr] at hw2
          | cons u us =>
            rw [wfP_cons] at hw2
            simp only [Bool.and_eq_true, hr] at hw2
            obtain ⟨hu, hwus⟩ := hw2
            have hu2 : isOpTok u = false := by simpa using hu
            obtain ⟨hu3, hu4⟩ := isOpTok_false_parts hu2
            have hwnus : wfP none us = true := by
              rw [← wfP_shift hu4 us]; exact hwus
            obtain ⟨s1, r1, hsp1⟩ :=
              List.exists_cons_of_ne_nil (splitPipes_ne_nil us)
            have hspts : splitPipes (u :: us) = (u :: s1) :: r1 :=
              splitPipes_cons hu3 hsp1
            have hsptts : splitPipes (t :: u :: us) = (t :: u :: s1) :: r1 :=
              splitPipes_cons ht hspts
            have hLHS : refCont (.msealed a) (t :: u :: us) =
                refCont (.mpending a) (u :: us) := by simp [refCont, ht, hr]
            rw [hLHS, ih3 a ?_, hsptts]
            · simp [List.drop_succ_cons, hsp1]
            · intro u' us' he
              cases he
              exact ⟨hu2, hwnus⟩
        · have hsh : wfP none ts = true := by
            rw [← wfP_shift (by simpa using hr) ts]; exact hw2
          obtain ⟨s0, r, hsp⟩ :=
            List.exists_cons_of_ne_nil (splitPipes_ne_nil ts)
          have hLHS : refCont (.msealed a) (t :: ts) =
              refCont (.msealed a) ts := by simp [refCont, ht, hr]
          rw [hLHS, ih2 a hsh, hsp, splitPipes_cons ht hsp]
          simp
    · intro a hyp
      obtain ⟨hu, hw⟩ := hyp t ts rfl
      have hLHS : refCont (.mpending a) (t :: ts) =
          refCont (.msealed a) ts := by simp [refCont]
      rw [hLHS, ih2 a hw]
      simp

lemma finalize_cmds_map (st : PState) (fname : String) :
    ((finalize st false fname).cmds.map argvOf) =
      (st.rev_done.reverse.map argvOf)
        ++ [argvOf (writeAt st.cur st.offset none)] := by
  simp [finalize, List.reverse_cons, List.map_append]

lemma finalize_cmds_map_backup (st : PState) (fname : String) :
    ((finalize st true fname).cmds.map argvOf) =
      ((st.rev_done.reverse.map argvOf)
        ++ [argvOf (writeAt st.cur st.offset none)])
        ++ [["tee", "-a", fname]] := by
  simp [finalize, List.reverse_cons, List.map_append, argvOf,
    List.append_assoc]

/-- Characterisation of the built stage argvs: under wellformed redirections
they are exactly the pipe-separated segments cut at the first redirection
operator, with the synthetic tee stage appended when backup is active. -/
lemma cmd_builder_argvs (toks : List String) (backup : Bool) (fname : String)
    (hwf : wfRedir toks = true) :
    (cmd_builder toks backup fname).cmds.map argvOf =
      (splitPipes toks).map refStage ++
        (if backup then [["tee", "-a", fname]] else []) := by
  have hsim := pstep_sim toks initP (.mopen [])
    (by simpa [initP, wfRedir] using hwf)
    (by simp [ModeInv, initP, prevRedir])
  have hrc := (refCont_char toks).1 [] (by simpa [wfRedir] using hwf)
  have hmapne : (splitPipes toks).map refStage ≠ [] := by
    intro hmap
    exact splitPipes_ne_nil toks (by simpa using hmap)
  rw [hrc, consH_nil_arg hmapne] at hsim
  have h0 : (List.map argvOf initP.rev_done.reverse) = [] := rfl
  rw [h0, List.nil_append] at hsim
  cases backup with
  | false => rw [cmd_builder, finalize_cmds_map, hsim]; simp
  | true => rw [cmd_builder, finalize_cmds_map_backup, hsim]; simp

/-! ## Executor lemmas -/

lemma outResolve (env : ExecEnv) (cmd : FullCommand) (lastOut : Src)
    (hout : ∀ g, cmd.file_out = some g → env.openOut g = true) :
    (match cmd.file_out with
     | some g =>
       if env.openOut g then Src.outfile g (cmd.overwrite == some true)
       else lastOut
     | none => Src.inheritOut) = outSrcOf cmd := by
  cases hfo : cmd.file_out with
  | none => simp [outSrcOf, hfo]
  | some g => simp [outSrcOf, hfo, hout g hfo]

lemma runStages_nil (env : ExecEnv) (cmd : FullCommand) (i : Nat)
    (fdIn lastOut : Src) : runStages env cmd i [] fdIn lastOut = [] := rfl

lemma runStages_cons_last (env : ExecEnv) (cmd : FullCommand) (c : Args)
    (rest : List Args) (i : Nat) (fdIn lastOut : Src)
    (hguard : ¬ cmd.num_cmds ≤ i) (hlast : i = cmd.num_cmds - 1)
    (hout : ∀ g, cmd.file_out = some g → env.openOut g = true) :
    runStages env cmd i (c :: rest) fdIn lastOut =
      ⟨argvOf c, fdIn, outSrcOf cmd⟩ ::
        runStages env cmd (i + 1) rest fdIn (outSrcOf cmd) := by
  simp only [runStages]
  rw [if_neg hguard, if_pos hlast, outResolve env cmd lastOut hout]

lemma runStages_cons_mid (env : ExecEnv) (cmd : FullCommand) (c : Args)
    (rest : List Args) (i : Nat) (fdIn lastOut : Src)
    (hguard : ¬ cmd.num_cmds ≤ i) (hlast : ¬ i = cmd.num_cmds - 1) :
    runStages env cmd i (c :: rest) fdIn lastOut =
      ⟨argvOf c, fdIn, Src.pipeWrite i⟩ ::
        runStages env cmd (i + 1) rest (Src.pipeRead i) (Src.pipeWrite i) := by
  simp only [runStages]
  rw [if_neg hguard, if_neg hlast]

lemma runStages_wiring (env : ExecEnv) (cmd : FullCommand)
    (hout : ∀ g, cmd.file_out = some g → env.openOut g = true)
    (stages : List Args) :
    ∀ (i : Nat) (fdIn lastOut : Src),
      i + stages.length = cmd.num_cmds →
      (runStages env cmd i stages fdIn lastOut).length = stages.length ∧
      ∀ j, j < stages.length →
        (runStages env cmd i stages fdIn lastOut).getD j forkD =
          ⟨argvOf (stages.getD j []),
           if j = 0 then fdIn else Src.pipeRead (i + j - 1),
           if i + j = cmd.num_cmds - 1 then outSrcOf cmd
           else Src.pipeWrite (i + j)⟩ := by
  induction stages with
  | nil =>
    intro i fdIn lastOut hlen
    exact ⟨rfl, fun j hj => absurd hj (by simp)⟩
  | cons c rest ih =>
    intro i fdIn lastOut hlen
    simp only [List.length_cons] at hlen
    have hguard : ¬ cmd.num_cmds ≤ i := by omega
    by_cases hlast : i = cmd.num_cmds - 1
    · have hrest : rest = [] := by
        cases rest with
        | nil => rfl
        | cons x xs => exfalso; simp at hlen; omega
      subst hrest
      rw [runStages_cons_last env cmd c [] i fdIn lastOut hguard hlast hout,
        runStages_nil]
      refine ⟨by simp, ?_⟩
      intro j hj
      have hj0 : j = 0 := by simpa using Nat.lt_one_iff.mp (by simpa using hj)
      subst hj0
      simp [hlast]
    · have hlen2 : (i + 1) + rest.length = cmd.num_cmds := by omega
      obtain ⟨ihlen, ihget⟩ := ih (i + 1) (Src.pipeRead i) (Src.pipeWrite i)
        hlen2
      rw [runStages_cons_mid env cmd c rest i fdIn lastOut hguard hlast]
      refine ⟨by simpa using ihlen, ?_⟩
      intro j hj
      cases j with
      | zero => simp [hlast]
      | succ j2 =>
        have hj2 : j2 < rest.length := by simpa using hj
        rw [List.getD_cons_succ, List.getD_cons_succ, ihget j2 hj2]
        have e1 : (if j2 = 0 then Src.pipeRead i
            else Src.pipeRead (i + 1 + j2 - 1)) = Src.pipeRead (i + j2) := by
          by_cases hj0 : j2 = 0
          · subst hj0; simp
          · rw [if_neg hj0]; congr 1; omega
        have e2 : i + 1 + j2 = i + (j2 + 1) := by omega
        rw [e1, e2]
        simp

lemma execute_cmd_quit (cmd : FullCommand) (bg : Bool) (env : ExecEnv)
    (hprog : (cmd.cmds.headD []).headD none = some "quit") :
    execute_cmd cmd bg env = ExecResult.terminate := by
  simp only [execute_cmd, hprog]
  simp

lemma execute_cmd_run (cmd : FullCommand) (bg : Bool) (env : ExecEnv)
    (s : String) (hprog : (cmd.cmds.headD []).headD none = some s)
    (hs : ¬ s = "quit")
    (hin : ∀ f, cmd.file_in = some f → env.openIn f = true) :
    execute_cmd cmd bg env =
      ExecResult.ok
        (runStages env cmd 0 cmd.cmds (inSrcOf cmd) Src.inheritOut)
        (if bg then none else some (env.exitStatus (cmd.num_cmds - 1))) 1 := by
  simp only [execute_cmd, hprog]
  rw [if_neg hs]
  cases hfi : cmd.file_in with
  | none => simp [inSrcOf, hfi]
  | some f => simp [inSrcOf, hfi, hin f hfi]

lemma execute_cmd_ok_inv (cmd : FullCommand) (bg : Bool) (env : ExecEnv)
    (forks : List ForkEv) (col : Option Nat) (ret : Nat)
    (h : execute_cmd cmd bg env = ExecResult.ok forks col ret) :
    ret = 1 ∧
      col = (if bg then none
             else some (env.exitStatus (cmd.num_cmds - 1))) := by
  cases hp : (cmd.cmds.headD []).headD none with
  | none => simp only [execute_cmd, hp] at h; simp at h
  | some prog =>
    simp only [execute_cmd, hp] at h
    by_cases hq : prog = "quit"
    · rw [if_pos hq] at h; simp at h
    · rw [if_neg hq] at h
      cases hfi : cmd.file_in with
      | none =>
        simp only [hfi] at h
        injection h with h1 h2 h3
        exact ⟨h3.symm, h2.symm⟩
      | some f =>
        simp only [hfi] at h
        by_cases ho : env.openIn f = true
        · rw [if_pos ho] at h
          injection h with h1 h2 h3
          exact ⟨h3.symm, h2.symm⟩
        · rw [if_neg ho] at h; simp at h

lemma execute_cmd_forks_inv (cmd : FullCommand) (bg : Bool) (env : ExecEnv)
    (forks : List ForkEv) (col : Option Nat) (ret : Nat)
    (h : execute_cmd cmd bg env = ExecResult.ok forks col ret) :
    forks = runStages env cmd 0 cmd.cmds (inSrcOf cmd) Src.inheritOut := by
  cases hp : (cmd.cmds.headD []).headD none with
  | none => simp only [execute_cmd, hp] at h; simp at h
  | some prog =>
    simp only [execute_cmd, hp] at h
    by_cases hq : prog = "quit"
    · rw [if_pos hq] at h; simp at h
    · rw [if_neg hq] at h
      cases hfi : cmd.file_in with
      | none =>
        simp only [hfi] at h
        injection h with h1 h2 h3
        rw [← h1]
        simp [inSrcOf, hfi]
      | some f =>
        simp only [hfi] at h
        by_cases ho : env.openIn f = true
        · rw [if_pos ho] at h
          injection h with h1 h2 h3
          rw [← h1]
          simp [inSrcOf, hfi]
        · rw [if_neg ho] at h; simp at h

/-! ## Session background flag -/

lemma get_cmd_true (l : List Char) : (get_cmd l true).2 = true := by
  cases hgl : l.getLast? with
  | none => simp [get_cmd, hgl]
  | some c => by_cases hc : c = '&' <;> simp [get_cmd, hgl, hc]

lemma get_cmd_amp (l : List Char) (bg : Bool) (h : l.getLast? = some '&') :
    (get_cmd l bg).2 = true := by
  simp [get_cmd, h]

lemma sessionFlags_cons (bg : Bool) (l : List Char) (ls : List (List Char)) :
    sessionFlags bg (l :: ls) =
      (get_cmd l bg).2 :: sessionFlags (get_cmd l bg).2 ls := rfl

lemma sessionFlags_true (ls : List (List Char)) :
    ∀ j, j < ls.length → (sessionFlags true ls).getD j false = true := by
  induction ls with
  | nil => intro j hj; simp at hj
  | cons l ls ih =>
    intro j hj
    rw [sessionFlags_cons, get_cmd_true]
    cases j with
    | zero => simp
    | succ j2 =>
      rw [List.getD_cons_succ]
      exact ih j2 (by simpa using hj)

/-! ## Claim theorems -/

/-- C1: for every token line in which each redirection operator is followed
by its operand and whose build stays inside the fixed C buffers, cmd_builder
with inactive transcript backup produces num_cmds = k + 1 where k is the
number of pipe tokens.  (As stated over every configuration the claim fails:
with backup active the builder appends a tee stage, see the
counterexample.) -/
theorem c1_stage_count (toks : List String) (fname : String)
    (hwf : wfRedir toks = true)
    (hnb : (cmd_builder toks false fname).oob = false) :
    (cmd_builder toks false fname).num_cmds = toks.count "|" + 1 := by
  simpa using cmd_builder_num_cmds toks false fname

/-- C1 witness: the two-pipe free line a | b has 1 pipe and parses to 2
stages. -/
theorem c1_stage_count_witness :
    (cmd_builder ["a", "|", "b"] false "").num_cmds =
      ["a", "|", "b"].count "|" + 1 :=
  c1_stage_count ["a", "|", "b"] "" (by decide) (by decide)

/-- C1 counterexample: with transcript backup active, the line ls (zero pipe
tokens, wellformed, no overflow) parses to 2 stages, not 0 + 1 = 1: the
builder appends the synthetic tee stage, so num_cmds = k + 2 there. -/
theorem c1_backup_counterexample :
    wfRedir ["ls"] = true ∧
    (cmd_builder ["ls"] true "log.txt").oob = false ∧
    (cmd_builder ["ls"] true "log.txt").num_cmds ≠
      ["ls"].count "|" + 1 := by
  decide

/-- C2: the claim fails on the code.  When the input redirection file cannot
be opened, execute_cmd does not abort just the pipeline: the parent perrors
and calls exit(EXIT_FAILURE), terminating the whole interpreter before any
fork (first conjunct).  When the output redirection file cannot be opened
the failure is never even detected (the code tests fd_in instead of fd_out):
the stage is forked anyway and its stdout falls back to the previous target
of descriptor 1 (second and third conjuncts). -/
theorem c2_io_failure_behaviour :
    execute_cmd (cmd_builder ["cat", "<", "missing.txt"] false "") false
        envNoIn = ExecResult.exitShell ∧
    forkCount (execute_cmd (cmd_builder ["cat", ">", "out.txt"] false "")
        false envNoOut) = 1 ∧
    execute_cmd (cmd_builder ["cat", ">", "out.txt"] false "") false
        envNoOut =
      ExecResult.ok [⟨["cat"], Src.inheritIn, Src.inheritOut⟩] (some 0) 1 := by
  decide

/-- C3 (amended): when background is false, execute_cmd blocks in waitpid on
the last forked stage and collects that stage's exit status; when background
is true no wait happens; in both cases the function returns 1 (the loop
continue flag), not the collected exit status. -/
theorem c3_wait_policy (cmd : FullCommand) (bg : Bool) (env : ExecEnv)
    (forks : List ForkEv) (col : Option Nat) (ret : Nat)
    (h : execute_cmd cmd bg env = ExecResult.ok forks col ret) :
    ret = 1 ∧
      col = (if bg then none
             else some (env.exitStatus (cmd.num_cmds - 1))) :=
  execute_cmd_ok_inv cmd bg env forks col ret h

/-- C3 witness: a foreground run collects the last stage's status and
returns 1; a background run collects nothing and returns 1. -/
theorem c3_wait_policy_witness :
    ((1 : Nat) = 1 ∧
      (some 0 : Option Nat) =
        (if false then none
         else some (envAll.exitStatus
            ((cmd_builder ["sleep", "5"] false "").num_cmds - 1)))) ∧
    ((1 : Nat) = 1 ∧
      (none : Option Nat) =
        (if true then none
         else some (envAll.exitStatus
            ((cmd_builder ["sleep", "5"] false "").num_cmds - 1)))) :=
  ⟨c3_wait_policy (cmd_builder ["sleep", "5"] false "") false envAll
      [⟨["sleep", "5"], Src.inheritIn, Src.inheritOut⟩] (some 0) 1
      (by decide),
   c3_wait_policy (cmd_builder ["sleep", "5"] false "") true envAll
      [⟨["sleep", "5"], Src.inheritIn, Src.inheritOut⟩] none 1
      (by decide)⟩

/-- C3 counterexample to the claim as stated: in a run whose last stage
exits with status 0, execute_cmd still returns 1, so the value returned to
the caller is not the last stage's exit status. -/
theorem c3_return_value_counterexample :
    execute_cmd (cmd_builder ["true"] false "") false envAll =
      ExecResult.ok [⟨["true"], Src.inheritIn, Src.inheritOut⟩] (some 0) 1 ∧
    (1 : Nat) ≠ 0 := by
  decide

/-- C4: the claim fails on the code; there is no syntax check at all.  The
line ls | parses to two stages, the second with an empty argv, and
execute_cmd forks both processes (the second child's execvp gets a NULL
program name and fails only inside the child).  The line | ls makes
cmds[0].args[0] NULL, and execute_cmd passes that NULL to strcmp: undefined
behaviour, modelled as the crash outcome. -/
theorem c4_empty_stage_not_rejected :
    (cmd_builder (tokenize "ls |".toList) false "").num_cmds = 2 ∧
    argvOf ((cmd_builder (tokenize "ls |".toList) false "").cmds.getD 1 []) =
      [] ∧
    forkCount (execute_cmd (cmd_builder (tokenize "ls |".toList) false "")
      false envAll) = 2 ∧
    execute_cmd (cmd_builder (tokenize "| ls".toList) false "") false
      envAll = ExecResult.crash := by
  decide

/-- C5: the claim fails on the code.  A blank line does not parse to zero
stages: cmd_builder returns num_cmds = 1 with a single stage whose args
array holds only the assigned NULL, and execute_cmd then passes that NULL
pointer to strcmp (undefined behaviour, modelled as crash) instead of
returning as a no-op. -/
theorem c5_blank_line_crashes :
    (cmd_builder (tokenize "".toList) false "").num_cmds = 1 ∧
    (cmd_builder (tokenize "".toList) false "").cmds = [[none]] ∧
    execute_cmd (cmd_builder (tokenize "".toList) false "") false envAll =
      ExecResult.crash := by
  decide

/-- C6: whenever the first stage's program name is the quit directive,
execute_cmd returns the terminate outcome to the loop at once: no file is
opened, no pipe is created, no process is forked (the terminate outcome is
produced before any of the environment is consulted). -/
theorem c6_quit_no_process (cmd : FullCommand) (bg : Bool) (env : ExecEnv)
    (hprog : (cmd.cmds.headD []).headD none = some "quit") :
    execute_cmd cmd bg env = ExecResult.terminate :=
  execute_cmd_quit cmd bg env hprog

/-- C6 witness: the line quit parses to a pipeline whose first program name
is quit, and executing it terminates without any fork. -/
theorem c6_quit_no_process_witness :
    execute_cmd (cmd_builder (tokenize "quit".toList) false "") false
      envAll = ExecResult.terminate :=
  c6_quit_no_process (cmd_builder (tokenize "quit".toList) false "") false
    envAll (by decide)

/-- C7: on a wellformed line (every redirection operator followed by its
operand), wherever a redirection is declared textually: the operand after
the last < is the whole pipeline's input_source, the operand after the last
> or >> is the whole pipeline's output_sink, every stage's argv is its pipe
segment cut before the first redirection operator (so no operator or operand
token is an argument of any stage), and the executor wires input_source to
stage 0's stdin, output_sink to the last stage's stdout, and every interior
boundary to a pipe — never a redirection on an interior stage. -/
theorem c7_redirections_pipeline_level (toks : List String) (backup : Bool)
    (fname : String) (env : ExecEnv) (bg : Bool)
    (hwf : wfRedir toks = true)
    (hin : ∀ f, (cmd_builder toks backup fname).file_in = some f →
      env.openIn f = true)
    (hout : ∀ g, (cmd_builder toks backup fname).file_out = some g →
      env.openOut g = true) :
    (cmd_builder toks backup fname).file_in = specInputSource toks ∧
    (cmd_builder toks backup fname).file_out = specOutputSource toks ∧
    (cmd_builder toks backup fname).cmds.map argvOf =
      (splitPipes toks).map refStage ++
        (if backup then [["tee", "-a", fname]] else []) ∧
    (∀ forks col ret,
      execute_cmd (cmd_builder toks backup fname) bg env =
        ExecResult.ok forks col ret →
      forks.length = (cmd_builder toks backup fname).num_cmds ∧
      ∀ i, i < forks.length →
        (forks.getD i forkD).stdin =
          (if i = 0 then inSrcOf (cmd_builder toks backup fname)
           else Src.pipeRead (i - 1)) ∧
        (forks.getD i forkD).stdout =
          (if i = (cmd_builder toks backup fname).num_cmds - 1
           then outSrcOf (cmd_builder toks backup fname)
           else Src.pipeWrite i)) := by
  refine ⟨cmd_builder_file_in toks backup fname hwf,
    cmd_builder_file_out toks backup fname hwf,
    cmd_builder_argvs toks backup fname hwf, ?_⟩
  intro forks col ret h
  have hforks := execute_cmd_forks_inv _ bg env forks col ret h
  have hlen0 : 0 + (cmd_builder toks backup fname).cmds.length =
      (cmd_builder toks backup fname).num_cmds := by
    simpa using cmd_builder_len toks backup fname
  obtain ⟨hl, hg⟩ := runStages_wiring env (cmd_builder toks backup fname)
    hout (cmd_builder toks backup fname).cmds 0
    (inSrcOf (cmd_builder toks backup fname)) Src.inheritOut hlen0
  constructor
  · rw [hforks, hl]
    simpa using hlen0
  · intro i hi
    have hi2 : i < (cmd_builder toks backup fname).cmds.length := by
      rw [hforks, hl] at hi; exact hi
    have := hg i hi2
    rw [hforks, this]
    constructor
    · cases i with
      | zero => simp
      | succ i2 => simp
    · simp

/-- C7 witness: on the line a | b < in.txt | c > out.txt the parse binds
in.txt and out.txt pipeline-wide, the argvs are a, b, c, and the executor
forks exactly 3 stages with stage 2's stdout resolved to the output sink. -/
theorem c7_redirections_witness :
    (cmd_builder toks7 false "").file_in = specInputSource toks7 ∧
    forks7.length = (cmd_builder toks7 false "").num_cmds ∧
    (forks7.getD 2 forkD).stdout =
      (if 2 = (cmd_builder toks7 false "").num_cmds - 1
       then outSrcOf (cmd_builder toks7 false "")
       else Src.pipeWrite 2) := by
  have h := c7_redirections_pipeline_level toks7 false "" envAll false
    (by decide) (fun f _ => rfl) (fun g _ => rfl)
  exact ⟨h.1, (h.2.2.2 forks7 (some 0) 1 (by decide)).1,
    ((h.2.2.2 forks7 (some 0) 1 (by decide)).2 2 (by decide)).2⟩

/-- C8: the claim fails on the code; there is no bound check anywhere in
cmd_builder.  A line of 17 stages writes to cmds[16], one past the
16-Command array, with no error report: the build overruns the heap buffer
(oob) while still silently yielding num_cmds = 17.  A single stage of 102
tokens likewise overruns the 101-slot args array. -/
theorem c8_overflow_unchecked :
    (cmd_builder ("a" :: (List.replicate 16 ["|", "a"]).flatten) false
      "").oob = true ∧
    (cmd_builder ("a" :: (List.replicate 16 ["|", "a"]).flatten) false
      "").num_cmds = 17 ∧
    (cmd_builder (List.replicate 102 "x") false "").oob = true := by
  decide

/-- C9: building twice from two copies of the same token line, with no state
shared between the parses, yields structurally identical FullCommands: same
stage count, same stage argument arrays, same input and output redirection
and same overwrite flag.  (The background flag is not part of FullCommand:
it is the global bg, which cmd_builder never writes, so it too is identical
across the two builds.) -/
theorem c9_build_deterministic (toks1 toks2 : List String) (backup : Bool)
    (fname : String) (hcopy : toks1 = toks2) :
    (cmd_builder toks1 backup fname).num_cmds =
        (cmd_builder toks2 backup fname).num_cmds ∧
    (cmd_builder toks1 backup fname).cmds =
        (cmd_builder toks2 backup fname).cmds ∧
    (cmd_builder toks1 backup fname).file_in =
        (cmd_builder toks2 backup fname).file_in ∧
    (cmd_builder toks1 backup fname).file_out =
        (cmd_builder toks2 backup fname).file_out ∧
    (cmd_builder toks1 backup fname).overwrite =
        (cmd_builder toks2 backup fname).overwrite := by
  subst hcopy
  exact ⟨rfl, rfl, rfl, rfl, rfl⟩

/-- C9 witness: two builds of cat < in.txt agree on every component. -/
theorem c9_build_deterministic_witness :
    (cmd_builder ["cat", "<", "in.txt"] false "").num_cmds =
        (cmd_builder ["cat", "<", "in.txt"] false "").num_cmds ∧
    (cmd_builder ["cat", "<", "in.txt"] false "").cmds =
        (cmd_builder ["cat", "<", "in.txt"] false "").cmds ∧
    (cmd_builder ["cat", "<", "in.txt"] false "").file_in =
        (cmd_builder ["cat", "<", "in.txt"] false "").file_in ∧
    (cmd_builder ["cat", "<", "in.txt"] false "").file_out =
        (cmd_builder ["cat", "<", "in.txt"] false "").file_out ∧
    (cmd_builder ["cat", "<", "in.txt"] false "").overwrite =
        (cmd_builder ["cat", "<", "in.txt"] false "").overwrite :=
  c9_build_deterministic ["cat", "<", "in.txt"] ["cat", "<", "in.txt"]
    false "" rfl

/-- C10: the background flag is sticky.  Once some line i ends in an
ampersand, get_cmd sets the global bg and nothing ever clears it, so every
later line j > i of the session is executed with the background flag set
even if line j does not end in an ampersand. -/
theorem c10_background_sticky (lines : List (List Char)) (bg0 : Bool)
    (i j : Nat) (hij : i < j) (hj : j < lines.length)
    (hamp : (lines.getD i []).getLast? = some '&') :
    (sessionFlags bg0 lines).getD j false = true := by
  induction lines generalizing bg0 i j with
  | nil => simp at hj
  | cons l ls ih =>
    rw [sessionFlags_cons]
    cases i with
    | zero =>
      have hge : (get_cmd l bg0).2 = true :=
        get_cmd_amp l bg0 (by simpa using hamp)
      cases j with
      | zero => omega
      | succ j2 =>
        rw [List.getD_cons_succ, hge]
        exact sessionFlags_true ls j2 (by simpa using hj)
    | succ i2 =>
      cases j with
      | zero => omega
      | succ j2 =>
        rw [List.getD_cons_succ]
        exact ih (get_cmd l bg0).2 i2 j2 (by omega) (by simpa using hj)
          (by simpa using hamp)

/-- C10 witness: after the line ls & (ending in an ampersand), the next
plain line ls is already executed with the background flag set. -/
theorem c10_background_sticky_witness :
    (sessionFlags false
      [['l', 's', ' ', '&'], ['l', 's']]).getD 1 false = true :=
  c10_background_sticky [['l', 's', ' ', '&'], ['l', 's']] false 0 1
    (by decide) (by decide) (by decide)

end Nsh
